import Mathlib

set_option maxRecDepth 10000

/-!
Verification development for the blog-template build script (`src/build.js`).

Strings are modelled as `List Char` and file bytes as `List Nat` (each < 256).
The render context (`data` object in `compile`) is modelled as a partial map
from key strings to string values; `none` models an absent key (JS
`undefined`), matching the fact that every value stored in the `data` record
of `compile` is a string.

The JS global regex replaces in `processConditionals` (line 100) and
`replacePlaceholders` (line 108) are modelled by left-to-right scanners that,
at each position, attempt the regex match; on success they emit the
replacement and continue after the match (the replacement is not re-scanned,
matching `String.prototype.replace` semantics), on failure they emit the
current character and advance by one.
-/

/-- A render context: JS object with string values; `none` = absent key. -/
def Ctx : Type := List Char → Option (List Char)

/-- JS regex `\w`: `[A-Za-z0-9_]`. -/
def isWordChar (c : Char) : Bool := c.isAlphanum || c = '_'

/-- The literal marker `{{#if ` opening a conditional (regex `\{\{#if `). -/
def openIfM : List Char := ['{', '{', '#', 'i', 'f', ' ']

/-- The literal `}}` closing a marker (regex `\}\}`). -/
def closeBr : List Char := ['}', '}']

/-- The literal marker `{{/if}}` (regex `\{\{\/if\}\}`). -/
def closeIfM : List Char := ['{', '{', '/', 'i', 'f', '}', '}']

/-- The literal `{{` opening a placeholder (regex `\{\{`). -/
def openBr : List Char := ['{', '{']

/-- Match a literal list at the front of the input; return the rest. -/
def matchLit : List Char → List Char → Option (List Char)
  | [], s => some s
  | _ :: _, [] => none
  | p :: ps, c :: cs => if c = p then matchLit ps cs else none

/-- Lazy scan `([\s\S]*?)\{\{\/if\}\}`: find the earliest occurrence of
`{{/if}}`, returning the text before it and the text after it. -/
def scanToClose : List Char → Option (List Char × List Char)
  | [] => none
  | c :: rest =>
    match matchLit closeIfM (c :: rest) with
    | some tail => some ([], tail)
    | none =>
      match scanToClose rest with
      | some p => some (c :: p.1, p.2)
      | none => none

/-- Attempt the regex `\{\{#if (\w+)\}\}([\s\S]*?)\{\{\/if\}\}` at the start
of the input. On success returns (key, block, rest-of-input). -/
def tryMatchCond (s : List Char) : Option (List Char × List Char × List Char) :=
  match matchLit openIfM s with
  | none => none
  | some r1 =>
    let key := r1.takeWhile isWordChar
    let r2 := r1.dropWhile isWordChar
    if key.isEmpty then none
    else
      match matchLit closeBr r2 with
      | none => none
      | some r3 =>
        match scanToClose r3 with
        | none => none
        | some p => some (key, p.1, p.2)

/-- JS truthiness of a context value: a present, non-empty string. -/
def truthyCtx (data : Ctx) (k : List Char) : Bool :=
  match data k with
  | some v => !v.isEmpty
  | none => false

/-- Fuel-driven scanner for `processConditionals` (build.js line 100):
`html.replace(/\{\{#if (\w+)\}\}([\s\S]*?)\{\{\/if\}\}/g, (_, key, block) =>
data[key] ? block : "")`. -/
def pcAux (data : Ctx) : Nat → List Char → List Char
  | 0, _ => []
  | _ + 1, [] => []
  | fuel + 1, c :: rest =>
    match tryMatchCond (c :: rest) with
    | some kbt => (if truthyCtx data kbt.1 then kbt.2.1 else []) ++ pcAux data fuel kbt.2.2
    | none => c :: pcAux data fuel rest

/-- `processConditionals` of build.js (line 100). -/
def processConditionals (data : Ctx) (s : List Char) : List Char :=
  pcAux data s.length s

/-- `data[key] != null ? data[key] : ""` of build.js line 110. -/
def jsLookup (data : Ctx) (k : List Char) : List Char := (data k).getD []

/-- Attempt the regex `\{\{(\w+)\}\}` at the start of the input.
On success returns (key, rest-of-input). -/
def tryMatchPh (s : List Char) : Option (List Char × List Char) :=
  match matchLit openBr s with
  | none => none
  | some r1 =>
    let key := r1.takeWhile isWordChar
    let r2 := r1.dropWhile isWordChar
    if key.isEmpty then none
    else
      match matchLit closeBr r2 with
      | none => none
      | some r3 => some (key, r3)

/-- Fuel-driven scanner for `replacePlaceholders` (build.js line 108):
`html.replace(/\{\{(\w+)\}\}/g, (match, key) => data[key] != null ?
data[key] : "")`. -/
def rpAux (data : Ctx) : Nat → List Char → List Char
  | 0, _ => []
  | _ + 1, [] => []
  | fuel + 1, c :: rest =>
    match tryMatchPh (c :: rest) with
    | some kt => jsLookup data kt.1 ++ rpAux data fuel kt.2
    | none => c :: rpAux data fuel rest

/-- `replacePlaceholders` of build.js (line 108). -/
def replacePlaceholders (data : Ctx) (s : List Char) : List Char :=
  rpAux data s.length s

/-- The two-pass template render of `compile` (build.js lines 144-145):
conditionals first, then placeholders. -/
def renderTemplate (data : Ctx) (template : List Char) : List Char :=
  replacePlaceholders data (processConditionals data template)

/-!
## Structured templates

To state the claims "for every template", well-formed templates are described
as lists of segments: literal text (containing no `{` and hence no markers),
placeholder tokens, and non-nested conditional regions whose bodies are again
literal/placeholder sequences. `renderSegs` produces the concrete template
string the scanners run on.
-/

/-- A template fragment outside of conditional markers: literal text or a
placeholder token. -/
inductive Piece
  | lit (s : List Char)
  | ph (k : List Char)

/-- A top-level template segment: a piece, or a conditional region. -/
inductive Seg
  | piece (p : Piece)
  | cond (k : List Char) (body : List Piece)

/-- The concrete text of a piece. -/
def renderPiece : Piece → List Char
  | .lit s => s
  | .ph k => openBr ++ k ++ closeBr

/-- The concrete text of a piece list. -/
def renderPieces (ps : List Piece) : List Char := (ps.map renderPiece).flatten

/-- The concrete text of a segment. -/
def renderSeg : Seg → List Char
  | .piece p => renderPiece p
  | .cond k body => openIfM ++ k ++ closeBr ++ renderPieces body ++ closeIfM

/-- The concrete text of a whole template. -/
def renderSegs (segs : List Seg) : List Char := (segs.map renderSeg).flatten

/-- A valid placeholder/conditional key: non-empty, all word characters. -/
def wfKey (k : List Char) : Bool := !k.isEmpty && k.all isWordChar

/-- Well-formed piece: literals contain no `{` (so they contain no marker
text), keys are valid. -/
def wfPiece : Piece → Bool
  | .lit s => s.all (fun c => c != '{')
  | .ph k => wfKey k

/-- Well-formed segment. -/
def wfSeg : Seg → Bool
  | .piece p => wfPiece p
  | .cond k body => wfKey k && body.all wfPiece

/-- Well-formed template. -/
def wfSegs (segs : List Seg) : Bool := segs.all wfSeg

/-- What the conditional pass does to one segment: pieces are kept verbatim,
a conditional region keeps its body (markers removed) when its key is truthy
and is dropped entirely otherwise. -/
def condResolveSeg (data : Ctx) : Seg → List Char
  | .piece p => renderPiece p
  | .cond k body => if truthyCtx data k then renderPieces body else []

/-- What the placeholder pass does to one piece: literals kept, placeholder
tokens replaced by the looked-up value (empty for absent keys). -/
def resolvePiece (data : Ctx) : Piece → List Char
  | .lit s => s
  | .ph k => jsLookup data k

/-- Full resolution of one segment by the two-pass render. -/
def resolveSeg (data : Ctx) : Seg → List Char
  | .piece p => resolvePiece data p
  | .cond k body => if truthyCtx data k then (body.map (resolvePiece data)).flatten else []

/-- The pieces surviving the conditional pass. -/
def condSurvivors (data : Ctx) : List Seg → List Piece
  | [] => []
  | .piece p :: rest => p :: condSurvivors data rest
  | .cond k body :: rest =>
    (if truthyCtx data k then body else []) ++ condSurvivors data rest

/-!
## Asset inliner (build.js lines 14-22, 59-97, 123-128)

The file system is modelled as a record of the operations build.js uses:
`fs.existsSync`, `fs.readFileSync` (returning `none` for an unreadable file,
which in the source throws and aborts the run), and `path.resolve`.
-/

/-- File-system and path model. `readBytes p = none` models a `readFileSync`
failure (which throws in the source). -/
structure FileSys where
  fexists : List Char → Bool
  readBytes : List Char → Option (List Nat)
  resolvePath : List Char → List Char → List Char

/-- `path.extname`: the part of the basename from its last dot (inclusive);
empty when the basename has no dot or only a leading dot. -/
def extname (p : List Char) : List Char :=
  let base := (p.reverse.takeWhile (fun c => c != '/')).reverse
  let revBase := base.reverse
  let pre := revBase.takeWhile (fun c => c != '.')
  if pre.length = revBase.length then []
  else if pre.length + 1 = revBase.length then []
  else '.' :: pre.reverse

/-- `MIME_TYPES` of build.js lines 14-22. -/
def MIME_TYPES (ext : List Char) : Option (List Char) :=
  if ext = ".png".toList then some "image/png".toList
  else if ext = ".jpg".toList then some "image/jpeg".toList
  else if ext = ".jpeg".toList then some "image/jpeg".toList
  else if ext = ".gif".toList then some "image/gif".toList
  else if ext = ".svg".toList then some "image/svg+xml".toList
  else if ext = ".webp".toList then some "image/webp".toList
  else if ext = ".avif".toList then some "image/avif".toList
  else none

/-- The base64 alphabet used by Node's `Buffer.prototype.toString("base64")`. -/
def B64_ALPHABET : List Char :=
  "ABCDEFGHIJKLMNOPQRSTUVWXYZabcdefghijklmnopqrstuvwxyz0123456789+/".toList

/-- The base64 digit for a 6-bit value. -/
def b64ch (n : Nat) : Char := B64_ALPHABET.getD n 'A'

/-- Standard base64 encoding with `=` padding, as produced by
`Buffer.prototype.toString("base64")` (build.js line 68). -/
def b64encode : List Nat → List Char
  | [] => []
  | [b1] => [b64ch (b1 / 4), b64ch (b1 % 4 * 16), '=', '=']
  | [b1, b2] =>
    [b64ch (b1 / 4), b64ch (b1 % 4 * 16 + b2 / 16), b64ch (b2 % 16 * 4), '=']
  | b1 :: b2 :: b3 :: rest =>
    b64ch (b1 / 4) :: b64ch (b1 % 4 * 16 + b2 / 16) ::
      b64ch (b2 % 16 * 4 + b3 / 64) :: b64ch (b3 % 64) :: b64encode rest

/-- The 6-bit value of a base64 digit. -/
def b64val (c : Char) : Option Nat :=
  let i := B64_ALPHABET.indexOf c
  if i < 64 then some i else none

/-- Standard base64 decoding (the mathematical inverse the spec's round-trip
property refers to). -/
def b64decode : List Char → Option (List Nat)
  | a :: b :: c :: d :: rest =>
    match b64val a, b64val b with
    | some va, some vb =>
      if c = '=' then
        if d = '=' ∧ rest = [] then some [va * 4 + vb / 16] else none
      else
        match b64val c with
        | some vc =>
          if d = '=' then
            if rest = [] then some [va * 4 + vb / 16, vb % 16 * 16 + vc / 4]
            else none
          else
            match b64val d with
            | some vd =>
              (b64decode rest).map
                (fun l => (va * 4 + vb / 16) :: (vb % 16 * 16 + vc / 4) ::
                  (vc % 4 * 64 + vd) :: l)
            | none => none
        | none => none
    | _, _ => none
  | [] => some []
  | _ => none

/-- `toDataUri` of build.js lines 60-69, with the `console.warn` side effect
modelled as the second component (number of warnings emitted) and the
`readFileSync` throw modelled as `Except.error`. The extension check happens
before the read, as in the source. -/
def toDataUri (fs : FileSys) (filePath : List Char) :
    Except Unit (Option (List Char)) × Nat :=
  let ext := (extname filePath).map Char.toLower
  match MIME_TYPES ext with
  | none => (Except.ok none, 1)
  | some mime =>
    match fs.readBytes filePath with
    | none => (Except.error (), 0)
    | some data =>
      (Except.ok (some ("data:".toList ++ mime ++ ";base64,".toList ++ b64encode data)), 0)

/-- `resolveImagePath` of build.js lines 72-79. -/
def resolveImagePath (fs : FileSys) (contentDir src : List Char) : Option (List Char) :=
  if "data:".toList.isPrefixOf src || "http://".toList.isPrefixOf src
      || "https://".toList.isPrefixOf src then
    none
  else
    let resolved := fs.resolvePath contentDir src
    if fs.fexists resolved then some resolved else none

/-- One match of the img-tag regex of build.js line 85, split into its three
capture groups: `(<img ...src=")(src)("...>)`. -/
structure ImgMatch where
  before : List Char
  src : List Char
  after : List Char

/-- The full matched text of an img-tag match. -/
def renderImgMatch (m : ImgMatch) : List Char := m.before ++ m.src ++ m.after

/-- The replacer callback of `inlineImages` (build.js lines 86-93), for one
match. Returns the replacement text and the number of warnings emitted. -/
def imgReplacer (fs : FileSys) (contentDir : List Char) (m : ImgMatch) :
    Except Unit (List Char) × Nat :=
  match resolveImagePath fs contentDir m.src with
  | none => (Except.ok (renderImgMatch m), 0)
  | some filePath =>
    match toDataUri fs filePath with
    | (Except.error e, w) => (Except.error e, w)
    | (Except.ok none, w) => (Except.ok (renderImgMatch m), w)
    | (Except.ok (some uri), w) => (Except.ok (m.before ++ uri ++ m.after), w)

/-- Rendered HTML decomposed into non-match text and img-tag matches; the
regex scan of build.js line 84 processes the matches left to right. -/
inductive HtmlSeg
  | lit (s : List Char)
  | img (m : ImgMatch)

/-- `inlineImages` of build.js lines 82-97 over the decomposed HTML:
each img-tag match goes through the replacer, other text is kept. -/
def inlineImages (fs : FileSys) (contentDir : List Char) :
    List HtmlSeg → Except Unit (List Char) × Nat
  | [] => (Except.ok [], 0)
  | .lit s :: rest =>
    match inlineImages fs contentDir rest with
    | (Except.error e, w) => (Except.error e, w)
    | (Except.ok t, w) => (Except.ok (s ++ t), w)
  | .img m :: rest =>
    match imgReplacer fs contentDir m with
    | (Except.error e, w) => (Except.error e, w)
    | (Except.ok t, w) =>
      match inlineImages fs contentDir rest with
      | (Except.error e, w2) => (Except.error e, w + w2)
      | (Except.ok t2, w2) => (Except.ok (t ++ t2), w + w2)

/-- The cover-image handling of `compile` (build.js lines 123-128):
`let coverImage = frontmatter.cover_image || ""; if (coverImage) { const
resolved = resolveImagePath(coverImage, contentDir); if (resolved)
coverImage = toDataUri(resolved) || coverImage; }`. -/
def coverImageValue (fs : FileSys) (contentDir : List Char)
    (cover_image : Option (List Char)) : Except Unit (List Char) × Nat :=
  let c := cover_image.getD []
  if c = [] then (Except.ok c, 0)
  else
    match resolveImagePath fs contentDir c with
    | none => (Except.ok c, 0)
    | some resolved =>
      match toDataUri fs resolved with
      | (Except.error e, w) => (Except.error e, w)
      | (Except.ok none, w) => (Except.ok c, w)
      | (Except.ok (some uri), w) => (Except.ok uri, w)

/-!
## Reading time (build.js lines 53-57)

JS whitespace (`String.prototype.trim`, regex `\s`) is modelled by
`Char.isWhitespace`.
-/

/-- `text.trim()`. -/
def jsTrim (s : List Char) : List Char :=
  (((s.dropWhile Char.isWhitespace).reverse.dropWhile Char.isWhitespace)).reverse

/-- Number of maximal non-whitespace runs; the flag records whether the
previous character was inside a run. -/
def countRunsAux : Bool → List Char → Nat
  | _, [] => 0
  | inWord, c :: rest =>
    if Char.isWhitespace c then countRunsAux false rest
    else (if inWord then 0 else 1) + countRunsAux true rest

/-- `text.trim().split(/\s+/).length`: splitting the empty string yields one
element (JS returns `[""]`), otherwise the number of whitespace-separated
tokens. -/
def wordCount (text : List Char) : Nat :=
  let t := jsTrim text
  if t.isEmpty then 1 else countRunsAux false t

/-- `Math.ceil(a / b)` for naturals (b > 0). -/
def ceilDiv (a b : Nat) : Nat := (a + b - 1) / b

/-- The decimal digit character for `n < 10`. -/
def digitChar (n : Nat) : Char := Char.ofNat (48 + n)

/-- Decimal digits of a natural, most significant first (fuel-driven). -/
def natDigitsAux : Nat → Nat → List Char
  | 0, _ => []
  | fuel + 1, n =>
    if n < 10 then [digitChar n]
    else natDigitsAux fuel (n / 10) ++ [digitChar (n % 10)]

/-- Decimal rendering of a natural, as JS template interpolation does. -/
def natToChars (n : Nat) : List Char := natDigitsAux (n + 1) n

/-- `readingTime` of build.js lines 53-57. -/
def readingTime (text : List Char) : List Char :=
  natToChars (ceilDiv (wordCount text) 230) ++ " min read".toList

/-!
## Document data (build.js lines 114-145)
-/

/-- The frontmatter fields `compile` reads (gray-matter result); `none`
models an absent field. -/
structure Frontmatter where
  title : Option (List Char)
  subtitle : Option (List Char)
  author : Option (List Char)
  date : Option (List Char)
  category : Option (List Char)
  cover_image : Option (List Char)
  og_image : Option (List Char)
  read_time : Option (List Char)
  footer : Option (List Char)
  slug : Option (List Char)

/-- JS `v || d` for an optional string `v`: the default is taken when the
field is absent or its value is the empty string (falsy). -/
def jsOr (v : Option (List Char)) (d : List Char) : List Char :=
  match v with
  | some s => if s = [] then d else s
  | none => d

/-- The `data` record of `compile` (build.js lines 130-142). -/
structure DocData where
  title : List Char
  subtitle : List Char
  author : List Char
  date : List Char
  category : List Char
  cover_image : List Char
  og_image : List Char
  read_time : List Char
  footer : List Char
  styles : List Char
  content : List Char

/-- Assembly of the `data` record (build.js lines 130-142). `coverImage` is
the value computed by lines 123-128. -/
def buildData (fm : Frontmatter) (markdown styles htmlContent coverImage : List Char) :
    DocData :=
  { title := jsOr fm.title "Untitled".toList
    subtitle := jsOr fm.subtitle []
    author := jsOr fm.author []
    date := jsOr fm.date []
    category := jsOr fm.category []
    cover_image := coverImage
    og_image := jsOr fm.og_image []
    read_time := jsOr fm.read_time (readingTime markdown)
    footer := jsOr fm.footer []
    styles := styles
    content := htmlContent }

/-- The `data` record viewed as the render context (`data[key]` lookups):
exactly the eleven keys of the object are present. -/
def ctxOf (d : DocData) : Ctx := fun k =>
  if k = "title".toList then some d.title
  else if k = "subtitle".toList then some d.subtitle
  else if k = "author".toList then some d.author
  else if k = "date".toList then some d.date
  else if k = "category".toList then some d.category
  else if k = "cover_image".toList then some d.cover_image
  else if k = "og_image".toList then some d.og_image
  else if k = "read_time".toList then some d.read_time
  else if k = "footer".toList then some d.footer
  else if k = "styles".toList then some d.styles
  else if k = "content".toList then some d.content
  else none

/-- The per-document pipeline of `compile` up to the template render
(build.js lines 114-145): cover-image resolution, data assembly, conditional
pass, placeholder pass. Body-image inlining (line 148) is modelled separately
by `inlineImages` at match granularity. -/
def compileModel (fs : FileSys) (contentDir : List Char) (fm : Frontmatter)
    (markdown htmlContent styles template : List Char) :
    Except Unit (List Char) × Nat :=
  match coverImageValue fs contentDir fm.cover_image with
  | (Except.error e, w) => (Except.error e, w)
  | (Except.ok cov, w) =>
    (Except.ok (renderTemplate (ctxOf (buildData fm markdown styles htmlContent cov)) template), w)

/-!
## Job runner (build.js lines 163-206)
-/

/-- Outcome of a run of `main`: exit code, outputs written, and whether the
"No markdown files found" guidance message was printed. -/
structure RunResult where
  exitCode : Nat
  outputs : List (List Char)
  printedGuidance : Bool
deriving DecidableEq

/-- `path.join(CONTENT_DIR, f)` (POSIX). -/
def joinContent (contentDir f : List Char) : List Char := contentDir ++ '/' :: f

/-- The collect step of `main` (build.js lines 168-188): `--all` or no
targets scans the directory listing for `.md` files; explicit targets are
resolved under the content directory unless absolute. -/
def collectFiles (contentDir : List Char) (args : List (List Char))
    (listing : List (List Char)) : List (List Char) :=
  let buildAll := args.contains "--all".toList
  let mdFiles :=
    (listing.filter (fun f => ".md".toList.isSuffixOf f)).map (joinContent contentDir)
  if buildAll then mdFiles
  else
    let targets := args.filter (fun a => !("--".toList.isPrefixOf a))
    if targets.isEmpty then mdFiles
    else targets.map (fun t =>
      if "/".toList.isPrefixOf t then t else joinContent contentDir t)

/-- `main` of build.js lines 163-206 (without the PDF step): empty collection
prints the guidance message and exits 0 (lines 190-193); otherwise each file
is compiled in order, a failure aborting with a non-zero exit
(lines 208-211). -/
def mainRun (contentDir : List Char) (args : List (List Char))
    (listing : List (List Char)) (compileFn : List Char → Except Unit (List Char)) :
    RunResult :=
  let files := collectFiles contentDir args listing
  if files.length = 0 then
    { exitCode := 0, outputs := [], printedGuidance := true }
  else
    match files.mapM compileFn with
    | Except.error _ => { exitCode := 1, outputs := [], printedGuidance := false }
    | Except.ok outs => { exitCode := 0, outputs := outs, printedGuidance := false }

/-!
## Lemmas: literal matching and the lazy close-marker scan
-/

theorem matchLit_append (pre t : List Char) : matchLit pre (pre ++ t) = some t := by
  induction pre with
  | nil => rfl
  | cons p ps ih => simp [matchLit, ih]

theorem matchLit_length : ∀ {ps s r : List Char}, matchLit ps s = some r →
    r.length + ps.length = s.length := by
  intro ps
  induction ps with
  | nil => intro s r h; simp [matchLit] at h; simp [h]
  | cons p ps ih =>
    intro s r h
    cases s with
    | nil => simp [matchLit] at h
    | cons c cs =>
      by_cases hc : c = p
      · simp only [matchLit, if_pos hc] at h
        have := ih h
        simp only [List.length_cons]
        omega
      · simp [matchLit, hc] at h

theorem word_ne {c : Char} (h : isWordChar c = true) :
    c ≠ '{' ∧ c ≠ '/' ∧ c ≠ '#' ∧ c ≠ '}' := by
  refine ⟨?_, ?_, ?_, ?_⟩ <;> intro e <;> subst e <;> revert h <;> decide

theorem scanToClose_length : ∀ {s : List Char} {p : List Char × List Char},
    scanToClose s = some p → p.2.length < s.length := by
  intro s
  induction s with
  | nil => intro p h; simp [scanToClose] at h
  | cons c rest ih =>
    intro p h
    simp only [scanToClose] at h
    split at h
    · cases h
      have := matchLit_length (by assumption : matchLit closeIfM (c :: rest) = some _)
      simp only [closeIfM, List.length_cons] at this ⊢
      omega
    · split at h
      · cases h
        have := ih (by assumption : scanToClose rest = some _)
        simp only [List.length_cons]
        omega
      · exact absurd h (by simp)

theorem scanToClose_marker (t : List Char) : scanToClose (closeIfM ++ t) = some ([], t) := by
  simp [closeIfM, scanToClose, matchLit]

theorem scanToClose_cons_ne {c : Char} (s : List Char) (h : c ≠ '{') :
    scanToClose (c :: s) = (scanToClose s).map (fun p => (c :: p.1, p.2)) := by
  have hm : matchLit closeIfM (c :: s) = none := by
    simp [closeIfM, matchLit, h]
  simp only [scanToClose, hm]
  cases scanToClose s with
  | none => rfl
  | some p => rfl

theorem scanToClose_noBrace {s : List Char} (h : s.all (fun c => c != '{') = true)
    (u : List Char) :
    scanToClose (s ++ u) = (scanToClose u).map (fun p => (s ++ p.1, p.2)) := by
  induction s with
  | nil =>
    simp only [List.nil_append]
    cases scanToClose u with
    | none => rfl
    | some p => rfl
  | cons c cs ih =>
    simp only [List.all_cons, Bool.and_eq_true, bne_iff_ne] at h
    rw [List.cons_append, scanToClose_cons_ne _ h.1, ih h.2]
    cases scanToClose u with
    | none => rfl
    | some p => rfl

theorem scanToClose_step_none {c : Char} {s : List Char}
    (hm : matchLit closeIfM (c :: s) = none) :
    scanToClose (c :: s) = (scanToClose s).map (fun p => (c :: p.1, p.2)) := by
  simp only [scanToClose, hm]
  cases scanToClose s with
  | none => rfl
  | some p => rfl

theorem word_all_noBrace {s : List Char} (h : s.all isWordChar = true) :
    s.all (fun c => c != '{') = true := by
  rw [List.all_eq_true] at h ⊢
  intro c hc
  simpa using (word_ne (h c hc)).1

theorem scanToClose_ph {k : List Char} (hk : wfKey k = true) (u : List Char) :
    scanToClose (openBr ++ k ++ (closeBr ++ u)) =
      (scanToClose u).map (fun p => (openBr ++ k ++ (closeBr ++ p.1), p.2)) := by
  obtain ⟨k0, kt, rfl⟩ : ∃ k0 kt, k = k0 :: kt := by
    cases k with
    | nil => simp [wfKey] at hk
    | cons k0 kt => exact ⟨k0, kt, rfl⟩
  simp only [wfKey, Bool.and_eq_true, List.all_cons, List.isEmpty_cons,
    Bool.not_false, Bool.true_and] at hk
  obtain ⟨hk0, hkt⟩ := hk
  have hm1 : matchLit closeIfM ('{' :: '{' :: k0 :: (kt ++ (closeBr ++ u))) = none := by
    simp [closeIfM, matchLit, (word_ne hk0).2.1]
  have hm2 : matchLit closeIfM ('{' :: k0 :: (kt ++ (closeBr ++ u))) = none := by
    simp [closeIfM, matchLit, (word_ne hk0).1]
  have hnb : ((k0 :: kt) ++ closeBr).all (fun c => c != '{') = true := by
    rw [List.all_append]
    refine Bool.and_eq_true_iff.mpr ⟨word_all_noBrace ?_, by decide⟩
    simp [List.all_cons, hk0, hkt]
  have key : openBr ++ (k0 :: kt) ++ (closeBr ++ u) =
      '{' :: '{' :: k0 :: (kt ++ (closeBr ++ u)) := by
    simp [openBr]
  rw [key, scanToClose_step_none hm1, scanToClose_step_none hm2]
  have key2 : k0 :: (kt ++ (closeBr ++ u)) = ((k0 :: kt) ++ closeBr) ++ u := by
    simp [List.append_assoc]
  rw [key2, scanToClose_noBrace hnb]
  cases scanToClose u with
  | none => rfl
  | some p => simp [openBr, closeBr, List.append_assoc]

theorem scanToClose_pieces {body : List Piece} (hb : body.all wfPiece = true) (t : List Char) :
    scanToClose (renderPieces body ++ (closeIfM ++ t)) = some (renderPieces body, t) := by
  induction body with
  | nil => simpa [renderPieces] using scanToClose_marker t
  | cons p ps ih =>
    simp only [List.all_cons, Bool.and_eq_true] at hb
    obtain ⟨hp, hps⟩ := hb
    cases p with
    | lit s =>
      have hr : renderPieces (Piece.lit s :: ps) = s ++ renderPieces ps := by
        simp [renderPieces, renderPiece]
      simp only [wfPiece] at hp
      rw [hr, List.append_assoc, scanToClose_noBrace hp, ih hps]
      simp
    | ph k =>
      have hr : renderPieces (Piece.ph k :: ps) = (openBr ++ k ++ closeBr) ++ renderPieces ps := by
        simp [renderPieces, renderPiece, List.append_assoc]
      simp only [wfPiece] at hp
      rw [hr, List.append_assoc]
      rw [show openBr ++ k ++ closeBr ++ (renderPieces ps ++ (closeIfM ++ t)) =
        openBr ++ k ++ (closeBr ++ (renderPieces ps ++ (closeIfM ++ t))) by
          simp [List.append_assoc]]
      rw [scanToClose_ph hp, ih hps]
      simp [List.append_assoc]

theorem dropWhileLenLe (p : Char → Bool) (s : List Char) :
    (s.dropWhile p).length ≤ s.length := by
  induction s with
  | nil => simp
  | cons c cs ih =>
    rw [List.dropWhile_cons]
    split
    · simp only [List.length_cons]
      omega
    · simp

theorem takeWhile_word_append {k : List Char} (hk : k.all isWordChar = true) (t : List Char) :
    (k ++ '}' :: t).takeWhile isWordChar = k ∧
      (k ++ '}' :: t).dropWhile isWordChar = '}' :: t := by
  induction k with
  | nil =>
    have hw : isWordChar '}' = false := by decide
    constructor <;> simp [List.takeWhile_cons, List.dropWhile_cons, hw]
  | cons c cs ih =>
    simp only [List.all_cons, Bool.and_eq_true] at hk
    obtain ⟨h1, h2⟩ := hk
    have hih := ih h2
    constructor
    · simp [List.takeWhile_cons, h1, hih.1]
    · simp [List.dropWhile_cons, h1, hih.2]

theorem tryMatchCond_at_cond {k : List Char} (hk : wfKey k = true)
    {body : List Piece} (hb : body.all wfPiece = true) (t : List Char) :
    tryMatchCond (openIfM ++ k ++ closeBr ++ renderPieces body ++ closeIfM ++ t) =
      some (k, renderPieces body, t) := by
  simp only [wfKey, Bool.and_eq_true] at hk
  obtain ⟨hne, hword⟩ := hk
  rw [show openIfM ++ k ++ closeBr ++ renderPieces body ++ closeIfM ++ t =
    openIfM ++ (k ++ '}' :: '}' :: (renderPieces body ++ (closeIfM ++ t))) by
      simp [closeBr, List.append_assoc]]
  simp only [tryMatchCond, matchLit_append]
  have tw := takeWhile_word_append hword ('}' :: (renderPieces body ++ (closeIfM ++ t)))
  rw [tw.1, tw.2]
  have hkE : k.isEmpty = false := by
    cases k with
    | nil => simp at hne
    | cons a as => rfl
  rw [if_neg (by simp [hkE])]
  rw [show ('}' :: '}' :: (renderPieces body ++ (closeIfM ++ t))) =
    closeBr ++ (renderPieces body ++ (closeIfM ++ t)) from rfl]
  rw [matchLit_append]
  simp [scanToClose_pieces hb]

theorem tryMatchCond_cons_ne {c : Char} (s : List Char) (h : c ≠ '{') :
    tryMatchCond (c :: s) = none := by
  have hm : matchLit openIfM (c :: s) = none := by
    simp [openIfM, matchLit, h]
  simp [tryMatchCond, hm]

theorem tryMatchCond_brace_word {k0 : Char} (s : List Char) (h : isWordChar k0 = true) :
    tryMatchCond ('{' :: k0 :: s) = none := by
  have hm : matchLit openIfM ('{' :: k0 :: s) = none := by
    simp [openIfM, matchLit, (word_ne h).1]
  simp [tryMatchCond, hm]

theorem tryMatchCond_ph {k0 : Char} (s : List Char) (h : isWordChar k0 = true) :
    tryMatchCond ('{' :: '{' :: k0 :: s) = none := by
  have hm : matchLit openIfM ('{' :: '{' :: k0 :: s) = none := by
    simp [openIfM, matchLit, (word_ne h).2.2.1]
  simp [tryMatchCond, hm]

theorem tryMatchCond_length {s : List Char} {kbt : List Char × List Char × List Char}
    (h : tryMatchCond s = some kbt) : kbt.2.2.length < s.length := by
  simp only [tryMatchCond] at h
  split at h
  · exact absurd h (by simp)
  · rename_i r1 hr1
    split at h
    · exact absurd h (by simp)
    · split at h
      · exact absurd h (by simp)
      · rename_i r3 hr3
        split at h
        · exact absurd h (by simp)
        · rename_i p hp
          cases h
          have l1 := matchLit_length hr1
          have l3 := matchLit_length hr3
          have l4 := scanToClose_length hp
          have l2 : (r1.dropWhile isWordChar).length ≤ r1.length :=
            dropWhileLenLe isWordChar r1
          simp only [openIfM, closeBr, List.length_cons, List.length_nil] at l1 l3
          change p.2.length < s.length
          omega

theorem pcAux_congr (data : Ctx) :
    ∀ f1 : Nat, ∀ s : List Char, ∀ f2 : Nat, s.length ≤ f1 → s.length ≤ f2 →
      pcAux data f1 s = pcAux data f2 s := by
  intro f1
  induction f1 with
  | zero =>
    intro s f2 h1 _
    have : s = [] := List.length_eq_zero.mp (Nat.le_zero.mp h1)
    subst this
    cases f2 with
    | zero => rfl
    | succ n => rfl
  | succ n ih =>
    intro s f2 h1 h2
    cases s with
    | nil =>
      cases f2 with
      | zero => rfl
      | succ m => rfl
    | cons c rest =>
      cases f2 with
      | zero => simp at h2
      | succ m =>
        cases htm : tryMatchCond (c :: rest) with
        | none =>
          simp only [pcAux, htm]
          simp only [List.length_cons] at h1 h2
          rw [ih rest m (by omega) (by omega)]
        | some kbt =>
          have hl := tryMatchCond_length htm
          simp only [pcAux, htm]
          simp only [List.length_cons] at h1 h2 hl
          rw [ih kbt.2.2 m (by omega) (by omega)]

theorem pc_nil (data : Ctx) : processConditionals data [] = [] := rfl

theorem pc_match {data : Ctx} {s : List Char} {kbt : List Char × List Char × List Char}
    (h : tryMatchCond s = some kbt) :
    processConditionals data s =
      (if truthyCtx data kbt.1 then kbt.2.1 else []) ++ processConditionals data kbt.2.2 := by
  cases s with
  | nil => exact absurd h (by simp [tryMatchCond, matchLit, openIfM])
  | cons c rest =>
    have hl := tryMatchCond_length h
    simp only [List.length_cons] at hl
    show pcAux data (rest.length + 1) (c :: rest) = _
    simp only [pcAux, h]
    rw [pcAux_congr data rest.length kbt.2.2 kbt.2.2.length (by omega) (by omega)]
    rfl

theorem pc_nomatch {data : Ctx} {c : Char} {rest : List Char}
    (h : tryMatchCond (c :: rest) = none) :
    processConditionals data (c :: rest) = c :: processConditionals data rest := by
  show pcAux data (rest.length + 1) (c :: rest) = _
  simp only [pcAux, h]
  rfl

theorem pc_noBrace_append {data : Ctx} {s : List Char}
    (h : s.all (fun c => c != '{') = true) (u : List Char) :
    processConditionals data (s ++ u) = s ++ processConditionals data u := by
  induction s with
  | nil => simp
  | cons c cs ih =>
    simp only [List.all_cons, Bool.and_eq_true, bne_iff_ne] at h
    rw [List.cons_append, pc_nomatch (tryMatchCond_cons_ne _ h.1), ih h.2]
    simp

theorem pc_ph_append {data : Ctx} {k : List Char} (hk : wfKey k = true) (u : List Char) :
    processConditionals data ((openBr ++ k ++ closeBr) ++ u) =
      (openBr ++ k ++ closeBr) ++ processConditionals data u := by
  obtain ⟨k0, kt, rfl⟩ : ∃ k0 kt, k = k0 :: kt := by
    cases k with
    | nil => simp [wfKey] at hk
    | cons k0 kt => exact ⟨k0, kt, rfl⟩
  simp only [wfKey, Bool.and_eq_true, List.all_cons, List.isEmpty_cons,
    Bool.not_false, Bool.true_and] at hk
  obtain ⟨hk0, hkt⟩ := hk
  have key : (openBr ++ (k0 :: kt) ++ closeBr) ++ u =
      '{' :: '{' :: k0 :: (kt ++ closeBr ++ u) := by
    simp [openBr, List.append_assoc]
  rw [key, pc_nomatch (tryMatchCond_ph _ hk0), pc_nomatch (tryMatchCond_brace_word _ hk0)]
  have hnb : (k0 :: (kt ++ closeBr)).all (fun c => c != '{') = true := by
    rw [List.all_cons, List.all_append]
    refine Bool.and_eq_true_iff.mpr ⟨by simpa using (word_ne hk0).1, ?_⟩
    exact Bool.and_eq_true_iff.mpr ⟨word_all_noBrace hkt, by decide⟩
  rw [show k0 :: (kt ++ closeBr ++ u) = (k0 :: (kt ++ closeBr)) ++ u by
    simp [List.append_assoc]]
  rw [pc_noBrace_append hnb]
  simp [openBr, closeBr, List.append_assoc]

theorem pc_pieces_append {data : Ctx} {ps : List Piece}
    (h : ps.all wfPiece = true) (u : List Char) :
    processConditionals data (renderPieces ps ++ u) =
      renderPieces ps ++ processConditionals data u := by
  induction ps with
  | nil => simp [renderPieces]
  | cons p rest ih =>
    simp only [List.all_cons, Bool.and_eq_true] at h
    obtain ⟨hp, hrest⟩ := h
    cases p with
    | lit s =>
      simp only [wfPiece] at hp
      have hr : renderPieces (Piece.lit s :: rest) = s ++ renderPieces rest := by
        simp [renderPieces, renderPiece]
      rw [hr, List.append_assoc, pc_noBrace_append hp, ih hrest, List.append_assoc]
    | ph k =>
      simp only [wfPiece] at hp
      have hr : renderPieces (Piece.ph k :: rest) =
          (openBr ++ k ++ closeBr) ++ renderPieces rest := by
        simp [renderPieces, renderPiece, List.append_assoc]
      rw [hr, List.append_assoc, pc_ph_append hp, ih hrest]
      simp [List.append_assoc]

theorem pc_segs {data : Ctx} {segs : List Seg} (h : wfSegs segs = true) :
    processConditionals data (renderSegs segs) =
      ((segs.map (condResolveSeg data)).flatten) := by
  induction segs with
  | nil => simp [renderSegs, processConditionals, pcAux]
  | cons sg rest ih =>
    simp only [wfSegs, List.all_cons, Bool.and_eq_true] at h
    obtain ⟨hsg, hrest⟩ := h
    cases sg with
    | piece p =>
      have hr : renderSegs (Seg.piece p :: rest) = renderPieces [p] ++ renderSegs rest := by
        simp [renderSegs, renderSeg, renderPieces]
      rw [hr, pc_pieces_append (by simpa [wfPiece] using hsg), ih hrest]
      simp [condResolveSeg, renderPieces]
    | cond k body =>
      simp only [wfSeg, Bool.and_eq_true] at hsg
      obtain ⟨hk, hb⟩ := hsg
      have hr : renderSegs (Seg.cond k body :: rest) =
          openIfM ++ k ++ closeBr ++ renderPieces body ++ closeIfM ++ renderSegs rest := by
        simp [renderSegs, renderSeg, List.append_assoc]
      rw [hr, pc_match (tryMatchCond_at_cond hk hb (renderSegs rest)), ih hrest]
      simp [condResolveSeg]

theorem tryMatchPh_at_ph {k : List Char} (hk : wfKey k = true) (u : List Char) :
    tryMatchPh (openBr ++ (k ++ (closeBr ++ u))) = some (k, u) := by
  simp only [wfKey, Bool.and_eq_true] at hk
  obtain ⟨hne, hword⟩ := hk
  rw [show k ++ (closeBr ++ u) = k ++ '}' :: ('}' :: u) from rfl]
  simp only [tryMatchPh, matchLit_append]
  have tw := takeWhile_word_append hword ('}' :: u)
  rw [tw.1, tw.2]
  have hkE : k.isEmpty = false := by
    cases k with
    | nil => simp at hne
    | cons a as => rfl
  rw [if_neg (by simp [hkE])]
  rw [show ('}' :: '}' :: u) = closeBr ++ u from rfl, matchLit_append]

theorem tryMatchPh_cons_ne {c : Char} (s : List Char) (h : c ≠ '{') :
    tryMatchPh (c :: s) = none := by
  have hm : matchLit openBr (c :: s) = none := by
    simp [openBr, matchLit, h]
  simp [tryMatchPh, hm]

theorem tryMatchPh_length {s : List Char} {kt : List Char × List Char}
    (h : tryMatchPh s = some kt) : kt.2.length < s.length := by
  simp only [tryMatchPh] at h
  split at h
  · exact absurd h (by simp)
  · rename_i r1 hr1
    split at h
    · exact absurd h (by simp)
    · split at h
      · exact absurd h (by simp)
      · rename_i r3 hr3
        cases h
        have l1 := matchLit_length hr1
        have l3 := matchLit_length hr3
        have l2 : (r1.dropWhile isWordChar).length ≤ r1.length :=
          dropWhileLenLe isWordChar r1
        simp only [openBr, closeBr, List.length_cons, List.length_nil] at l1 l3
        change r3.length < s.length
        omega

theorem rpAux_congr (data : Ctx) :
    ∀ f1 : Nat, ∀ s : List Char, ∀ f2 : Nat, s.length ≤ f1 → s.length ≤ f2 →
      rpAux data f1 s = rpAux data f2 s := by
  intro f1
  induction f1 with
  | zero =>
    intro s f2 h1 _
    have : s = [] := List.length_eq_zero.mp (Nat.le_zero.mp h1)
    subst this
    cases f2 with
    | zero => rfl
    | succ n => rfl
  | succ n ih =>
    intro s f2 h1 h2
    cases s with
    | nil =>
      cases f2 with
      | zero => rfl
      | succ m => rfl
    | cons c rest =>
      cases f2 with
      | zero => simp at h2
      | succ m =>
        cases htm : tryMatchPh (c :: rest) with
        | none =>
          simp only [rpAux, htm]
          simp only [List.length_cons] at h1 h2
          rw [ih rest m (by omega) (by omega)]
        | some kt =>
          have hl := tryMatchPh_length htm
          simp only [rpAux, htm]
          simp only [List.length_cons] at h1 h2 hl
          rw [ih kt.2 m (by omega) (by omega)]

theorem rp_match {data : Ctx} {s : List Char} {kt : List Char × List Char}
    (h : tryMatchPh s = some kt) :
    replacePlaceholders data s = jsLookup data kt.1 ++ replacePlaceholders data kt.2 := by
  cases s with
  | nil => exact absurd h (by simp [tryMatchPh, matchLit, openBr])
  | cons c rest =>
    have hl := tryMatchPh_length h
    simp only [List.length_cons] at hl
    show rpAux data (rest.length + 1) (c :: rest) = _
    simp only [rpAux, h]
    rw [rpAux_congr data rest.length kt.2 kt.2.length (by omega) (by omega)]
    rfl

theorem rp_nomatch {data : Ctx} {c : Char} {rest : List Char}
    (h : tryMatchPh (c :: rest) = none) :
    replacePlaceholders data (c :: rest) = c :: replacePlaceholders data rest := by
  show rpAux data (rest.length + 1) (c :: rest) = _
  simp only [rpAux, h]
  rfl

theorem rp_noBrace_append {data : Ctx} {s : List Char}
    (h : s.all (fun c => c != '{') = true) (u : List Char) :
    replacePlaceholders data (s ++ u) = s ++ replacePlaceholders data u := by
  induction s with
  | nil => simp
  | cons c cs ih =>
    simp only [List.all_cons, Bool.and_eq_true, bne_iff_ne] at h
    rw [List.cons_append, rp_nomatch (tryMatchPh_cons_ne _ h.1), ih h.2]
    simp

theorem rp_pieces {data : Ctx} {ps : List Piece} (h : ps.all wfPiece = true) :
    replacePlaceholders data (renderPieces ps) = (ps.map (resolvePiece data)).flatten := by
  induction ps with
  | nil => rfl
  | cons p rest ih =>
    simp only [List.all_cons, Bool.and_eq_true] at h
    obtain ⟨hp, hrest⟩ := h
    cases p with
    | lit s =>
      simp only [wfPiece] at hp
      have hr : renderPieces (Piece.lit s :: rest) = s ++ renderPieces rest := by
        simp [renderPieces, renderPiece]
      rw [hr, rp_noBrace_append hp, ih hrest]
      simp [resolvePiece]
    | ph k =>
      simp only [wfPiece] at hp
      have hr : renderPieces (Piece.ph k :: rest) =
          openBr ++ (k ++ (closeBr ++ renderPieces rest)) := by
        simp [renderPieces, renderPiece, List.append_assoc]
      rw [hr, rp_match (tryMatchPh_at_ph hp (renderPieces rest)), ih hrest]
      simp [resolvePiece]

theorem condSurvivors_render {data : Ctx} (segs : List Seg) :
    (segs.map (condResolveSeg data)).flatten = renderPieces (condSurvivors data segs) := by
  induction segs with
  | nil => rfl
  | cons sg rest ih =>
    cases sg with
    | piece p => simp [condResolveSeg, condSurvivors, renderPieces, ih]
    | cond k body =>
      by_cases ht : truthyCtx data k = true
      · simp [condResolveSeg, condSurvivors, ht, renderPieces, ih]
      · simp only [Bool.not_eq_true] at ht
        simp [condResolveSeg, condSurvivors, ht, renderPieces, ih]

theorem condSurvivors_wf {data : Ctx} {segs : List Seg} (h : wfSegs segs = true) :
    (condSurvivors data segs).all wfPiece = true := by
  induction segs with
  | nil => rfl
  | cons sg rest ih =>
    simp only [wfSegs, List.all_cons, Bool.and_eq_true] at h
    obtain ⟨hsg, hrest⟩ := h
    cases sg with
    | piece p =>
      simp only [condSurvivors, List.all_cons, Bool.and_eq_true]
      exact ⟨by simpa [wfSeg] using hsg, ih hrest⟩
    | cond k body =>
      simp only [wfSeg, Bool.and_eq_true] at hsg
      simp only [condSurvivors, List.all_append, Bool.and_eq_true]
      refine ⟨?_, ih hrest⟩
      by_cases ht : truthyCtx data k = true
      · simpa [ht] using hsg.2
      · simp only [Bool.not_eq_true] at ht
        simp [ht]

theorem condSurvivors_resolve {data : Ctx} (segs : List Seg) :
    ((condSurvivors data segs).map (resolvePiece data)).flatten =
      (segs.map (resolveSeg data)).flatten := by
  induction segs with
  | nil => rfl
  | cons sg rest ih =>
    cases sg with
    | piece p => simp [condSurvivors, resolveSeg, ih]
    | cond k body =>
      by_cases ht : truthyCtx data k = true
      · simp [condSurvivors, resolveSeg, ht, ih]
      · simp only [Bool.not_eq_true] at ht
        simp [condSurvivors, resolveSeg, ht, ih]

theorem renderTemplate_segs {data : Ctx} {segs : List Seg} (h : wfSegs segs = true) :
    renderTemplate data (renderSegs segs) = (segs.map (resolveSeg data)).flatten := by
  rw [renderTemplate, pc_segs h, condSurvivors_render, rp_pieces (condSurvivors_wf h),
    condSurvivors_resolve]

/-!
## Claim theorems: template renderer
-/

/-- C1. Conditional elimination: for every render context and every
well-formed template (a sequence of literal runs, placeholder tokens, and
non-nested conditional regions), `processConditionals` keeps each conditional
region's enclosed text verbatim with the markers removed exactly when the
context's value for the guarding name is a present non-empty string, and
drops the entire region including its markers when the key is absent or its
value is empty; all other template text is kept unchanged. -/
theorem conditional_elimination (data : Ctx) (segs : List Seg) (h : wfSegs segs = true) :
    processConditionals data (renderSegs segs) =
      (segs.map (condResolveSeg data)).flatten ∧
    ∀ k, truthyCtx data k = true ↔ ∃ v, data k = some v ∧ v ≠ [] := by
  refine ⟨pc_segs h, fun k => ?_⟩
  unfold truthyCtx
  cases data k with
  | none => simp
  | some v => simp

/-- Witness for C1: the spec's concrete example. For the template
`{{#if x}}A{{/if}}{{#if y}}B{{/if}}` and the context mapping `x` to `"1"`
with `y` absent, the conditional pass yields exactly `A`. -/
theorem conditional_elimination_witness :
    processConditionals (fun k => if k = ['x'] then some ['1'] else none)
      (renderSegs [Seg.cond ['x'] [Piece.lit ['A']], Seg.cond ['y'] [Piece.lit ['B']]]) =
      ['A'] := by
  have h := conditional_elimination (fun k => if k = ['x'] then some ['1'] else none)
    [Seg.cond ['x'] [Piece.lit ['A']], Seg.cond ['y'] [Piece.lit ['B']]] (by decide)
  rw [h.1]
  decide

/-- C2. Placeholder substitution: for every render context and every
well-formed sequence of literal runs and placeholder tokens (the text
remaining after conditional elimination), `replacePlaceholders` replaces
every placeholder token by the context's string value for that name, and by
the empty string when the key is absent or null-like; an unknown placeholder
name is never left as literal token text and never causes an error. -/
theorem placeholder_substitution (data : Ctx) (ps : List Piece)
    (h : ps.all wfPiece = true) :
    replacePlaceholders data (renderPieces ps) = (ps.map (resolvePiece data)).flatten ∧
    (∀ k, data k = none → jsLookup data k = []) ∧
    (∀ k v, data k = some v → jsLookup data k = v) := by
  refine ⟨rp_pieces h, fun k hk => ?_, fun k v hk => ?_⟩
  · simp [jsLookup, hk]
  · simp [jsLookup, hk]

/-- Witness for C2: the spec's concrete example. `{{title}}` with
`title: "Hello"` renders as exactly `Hello`; with no `title` key it renders
as the empty string, not the literal token. -/
theorem placeholder_substitution_witness :
    replacePlaceholders (fun k => if k = "title".toList then some "Hello".toList else none)
      (renderPieces [Piece.ph "title".toList]) = "Hello".toList ∧
    replacePlaceholders (fun _ => none) (renderPieces [Piece.ph "title".toList]) = [] := by
  constructor
  · have h := placeholder_substitution
      (fun k => if k = "title".toList then some "Hello".toList else none)
      [Piece.ph "title".toList] (by decide)
    rw [h.1]
    decide
  · have h := placeholder_substitution (fun _ => none)
      [Piece.ph "title".toList] (by decide)
    rw [h.1]
    decide

/-- C3. Rendering order: the renderer resolves conditionals before
placeholders, so a placeholder token inside a dropped conditional region
(guard key absent or empty) is never substituted and does not appear in the
output: rendering a template with the dropped region equals rendering the
template with that region removed entirely. -/
theorem dropped_conditional_not_substituted (data : Ctx) (pre post : List Seg)
    (k : List Char) (body : List Piece)
    (hwf : wfSegs (pre ++ Seg.cond k body :: post) = true)
    (hf : truthyCtx data k = false) :
    renderTemplate data (renderSegs (pre ++ Seg.cond k body :: post)) =
      renderTemplate data (renderSegs (pre ++ post)) ∧
    renderTemplate data (renderSegs (pre ++ Seg.cond k body :: post)) =
      ((pre ++ post).map (resolveSeg data)).flatten := by
  have hwf2 : wfSegs (pre ++ post) = true := by
    simp only [wfSegs, List.all_append, List.all_cons, Bool.and_eq_true] at hwf ⊢
    exact ⟨hwf.1, hwf.2.2⟩
  have h1 := @renderTemplate_segs data _ hwf
  have h2 := @renderTemplate_segs data _ hwf2
  have hmid : ((pre ++ Seg.cond k body :: post).map (resolveSeg data)).flatten =
      ((pre ++ post).map (resolveSeg data)).flatten := by
    simp [List.map_append, resolveSeg, hf]
  exact ⟨by rw [h1, hmid, ← h2], by rw [h1, hmid]⟩

/-- Witness for C3: rendering `{{#if y}}{{title}}{{/if}}` with an empty
context yields the empty string — the `{{title}}` placeholder inside the
dropped region leaves no trace. -/
theorem dropped_conditional_witness :
    renderTemplate (fun _ => none)
      (renderSegs [Seg.cond "y".toList [Piece.ph "title".toList]]) = [] := by
  have h := dropped_conditional_not_substituted (fun _ => none) [] []
    "y".toList [Piece.ph "title".toList] (by decide) (by decide)
  simpa using h.2

/-!
## Base64 round trip and the asset-inliner claims
-/

theorem b64val_b64ch_fin : ∀ n : Fin 64, b64val (b64ch n.val) = some n.val := by decide

theorem b64ch_ne_pad_fin : ∀ n : Fin 64, b64ch n.val ≠ '=' := by decide

theorem b64val_b64ch {n : Nat} (h : n < 64) : b64val (b64ch n) = some n :=
  b64val_b64ch_fin ⟨n, h⟩

theorem b64ch_ne_pad {n : Nat} (h : n < 64) : b64ch n ≠ '=' :=
  b64ch_ne_pad_fin ⟨n, h⟩

theorem div16Helper (x y : Nat) (hy : y < 16) : (x * 16 + y) / 16 = x := by omega

theorem mod16Helper (x y : Nat) (hy : y < 16) : (x * 16 + y) % 16 = y := by omega

theorem div4Helper (x y : Nat) (hy : y < 4) : (x * 4 + y) / 4 = x := by omega

theorem mod4Helper (x y : Nat) (hy : y < 4) : (x * 4 + y) % 4 = y := by omega

theorem mul16DivHelper (x : Nat) : x * 16 / 16 = x := by omega

theorem mul4DivHelper (x : Nat) : x * 4 / 4 = x := by omega

theorem b64_roundtrip : ∀ bs : List Nat, (∀ b ∈ bs, b < 256) →
    b64decode (b64encode bs) = some bs
  | [], _ => rfl
  | [b1], h => by
    have hb1 : b1 < 256 := h b1 (by simp)
    have e1 := b64val_b64ch (show b1 / 4 < 64 by omega)
    have e2 := b64val_b64ch (show b1 % 4 * 16 < 64 by omega)
    have c1 : b1 / 4 * 4 + b1 % 4 * 16 / 16 = b1 := by
      rw [mul16DivHelper]
      omega
    simp [b64encode, b64decode, e1, e2, c1]
    omega
  | [b1, b2], h => by
    have hb1 : b1 < 256 := h b1 (by simp)
    have hb2 : b2 < 256 := h b2 (by simp)
    have e1 := b64val_b64ch (show b1 / 4 < 64 by omega)
    have e2 := b64val_b64ch (show b1 % 4 * 16 + b2 / 16 < 64 by omega)
    have e3 := b64val_b64ch (show b2 % 16 * 4 < 64 by omega)
    have hne3 := b64ch_ne_pad (show b2 % 16 * 4 < 64 by omega)
    have c1 : b1 / 4 * 4 + (b1 % 4 * 16 + b2 / 16) / 16 = b1 := by
      rw [div16Helper _ _ (by omega)]
      omega
    have c2 : (b1 % 4 * 16 + b2 / 16) % 16 * 16 + b2 % 16 * 4 / 4 = b2 := by
      rw [mod16Helper _ _ (by omega), mul4DivHelper]
      omega
    simp [b64encode, b64decode, e1, e2, e3, hne3, c1, c2]
    rw [mod16Helper _ _ (by omega)]
    omega
  | b1 :: b2 :: b3 :: rest, h => by
    have hb1 : b1 < 256 := h b1 (by simp)
    have hb2 : b2 < 256 := h b2 (by simp)
    have hb3 : b3 < 256 := h b3 (by simp)
    have ih := b64_roundtrip rest (fun b hb => h b (by simp [hb]))
    have e1 := b64val_b64ch (show b1 / 4 < 64 by omega)
    have e2 := b64val_b64ch (show b1 % 4 * 16 + b2 / 16 < 64 by omega)
    have e3 := b64val_b64ch (show b2 % 16 * 4 + b3 / 64 < 64 by omega)
    have e4 := b64val_b64ch (show b3 % 64 < 64 by omega)
    have hne3 := b64ch_ne_pad (show b2 % 16 * 4 + b3 / 64 < 64 by omega)
    have hne4 := b64ch_ne_pad (show b3 % 64 < 64 by omega)
    have c1 : b1 / 4 * 4 + (b1 % 4 * 16 + b2 / 16) / 16 = b1 := by
      rw [div16Helper _ _ (by omega)]
      omega
    have c2 : (b1 % 4 * 16 + b2 / 16) % 16 * 16 + (b2 % 16 * 4 + b3 / 64) / 4 = b2 := by
      rw [mod16Helper _ _ (by omega), div4Helper _ _ (by omega)]
      omega
    have c3 : (b2 % 16 * 4 + b3 / 64) % 4 * 64 + b3 % 64 = b3 := by
      rw [mod4Helper _ _ (by omega)]
      omega
    cases rest with
    | nil => simp [b64encode, b64decode, e1, e2, e3, e4, hne3, hne4, c1, c2, c3]
    | cons r0 rrest =>
      simp only [b64encode]
      simp [b64decode, e1, e2, e3, e4, hne3, hne4, c1, c2, c3, ih]

/-- C4. Asset-inliner round trip: for every file whose (lower-cased)
extension is in the MIME whitelist and every byte content, `toDataUri`
produces exactly `data:<mime>;base64,<payload>` with the MIME type determined
by the extension, emits no warning, raises no error, and base64-decoding the
payload reproduces the file's bytes exactly. -/
theorem data_uri_roundtrip (fs : FileSys) (p mime : List Char) (bytes : List Nat)
    (hm : MIME_TYPES ((extname p).map Char.toLower) = some mime)
    (hr : fs.readBytes p = some bytes)
    (hb : ∀ b ∈ bytes, b < 256) :
    toDataUri fs p =
      (Except.ok (some ("data:".toList ++ mime ++ ";base64,".toList ++ b64encode bytes)), 0) ∧
    b64decode (b64encode bytes) = some bytes := by
  constructor
  · simp [toDataUri, hm, hr]
  · exact b64_roundtrip bytes hb

/-- Witness for C4: a `.png` file with bytes `[137, 80, 78, 71]` inlines to a
`data:image/png;base64,...` URI whose payload decodes back to those bytes. -/
theorem data_uri_roundtrip_witness :
    toDataUri
      { fexists := fun _ => true
        readBytes := fun _ => some [137, 80, 78, 71]
        resolvePath := fun a b => a ++ '/' :: b } "a.png".toList =
      (Except.ok (some ("data:".toList ++ "image/png".toList ++ ";base64,".toList ++
        b64encode [137, 80, 78, 71])), 0) ∧
    b64decode (b64encode [137, 80, 78, 71]) = some [137, 80, 78, 71] := by
  have h := data_uri_roundtrip
    { fexists := fun _ => true
      readBytes := fun _ => some [137, 80, 78, 71]
      resolvePath := fun a b => a ++ '/' :: b }
    "a.png".toList "image/png".toList [137, 80, 78, 71]
    (by decide) (by decide) (by decide)
  exact h

/-- C5. Unsupported-format tolerance: for every file path whose extension is
not in the whitelist, `toDataUri` emits exactly one warning and returns no
inline representation without raising an error (even if the file is
unreadable, since the extension is checked before reading); the img-tag
replacer and the cover-image step then keep the original reference text
character-for-character unchanged. -/
theorem unsupported_format_warns (fs : FileSys) (p : List Char)
    (hm : MIME_TYPES ((extname p).map Char.toLower) = none) :
    toDataUri fs p = (Except.ok none, 1) ∧
    (∀ contentDir : List Char, ∀ m : ImgMatch,
      resolveImagePath fs contentDir m.src = some p →
      imgReplacer fs contentDir m = (Except.ok (renderImgMatch m), 1)) ∧
    (∀ contentDir cov : List Char, cov ≠ [] →
      resolveImagePath fs contentDir cov = some p →
      coverImageValue fs contentDir (some cov) = (Except.ok cov, 1)) := by
  have h1 : toDataUri fs p = (Except.ok none, 1) := by
    simp [toDataUri, hm]
  refine ⟨h1, fun contentDir m hres => ?_, fun contentDir cov hne hres => ?_⟩
  · simp [imgReplacer, hres, h1]
  · simp [coverImageValue, hne, hres, h1]

/-- Witness for C5: a `.bmp` reference (unreadable on disk, even) produces a
single warning, no inline representation, and the replacer and cover-image
step keep the reference unchanged with no error. -/
theorem unsupported_format_warns_witness :
    toDataUri
      { fexists := fun _ => true
        readBytes := fun _ => none
        resolvePath := fun _ b => b } "a.bmp".toList = (Except.ok none, 1) ∧
    imgReplacer
      { fexists := fun _ => true
        readBytes := fun _ => none
        resolvePath := fun _ b => b } "content".toList
      { before := "<img src=".toList, src := "a.bmp".toList, after := ">".toList } =
      (Except.ok (renderImgMatch
        { before := "<img src=".toList, src := "a.bmp".toList, after := ">".toList }), 1) ∧
    coverImageValue
      { fexists := fun _ => true
        readBytes := fun _ => none
        resolvePath := fun _ b => b } "content".toList (some "a.bmp".toList) =
      (Except.ok "a.bmp".toList, 1) := by
  have h := unsupported_format_warns
    { fexists := fun _ => true
      readBytes := fun _ => none
      resolvePath := fun _ b => b } "a.bmp".toList (by decide)
  refine ⟨h.1, ?_, ?_⟩
  · exact h.2.1 "content".toList
      { before := "<img src=".toList, src := "a.bmp".toList, after := ">".toList }
      (by decide)
  · exact h.2.2 "content".toList "a.bmp".toList (by decide) (by decide)

/-- C6. Non-local references untouched: for every image source reference that
begins with `http://` or `https://`, or is already a data URI, or is a local
path that does not resolve to an existing file, `resolveImagePath` returns
nothing, so the img-tag replacer and the cover-image step keep the reference
character-for-character unchanged, with no warning and no error. -/
theorem nonlocal_refs_untouched (fs : FileSys) (contentDir src : List Char)
    (h : "data:".toList.isPrefixOf src = true ∨ "http://".toList.isPrefixOf src = true ∨
      "https://".toList.isPrefixOf src = true ∨
      fs.fexists (fs.resolvePath contentDir src) = false) :
    resolveImagePath fs contentDir src = none ∧
    (∀ m : ImgMatch, m.src = src →
      imgReplacer fs contentDir m = (Except.ok (renderImgMatch m), 0)) ∧
    (src ≠ [] → coverImageValue fs contentDir (some src) = (Except.ok src, 0)) := by
  have hres : resolveImagePath fs contentDir src = none := by
    unfold resolveImagePath
    split
    · rfl
    · rename_i hcond
      rcases h with h | h | h | h
      · exact absurd (by simp only [Bool.or_eq_true]; exact Or.inl (Or.inl h)) hcond
      · exact absurd (by simp only [Bool.or_eq_true]; exact Or.inl (Or.inr h)) hcond
      · exact absurd (by simp only [Bool.or_eq_true]; exact Or.inr h) hcond
      · simp [h]
  refine ⟨hres, fun m hm => ?_, fun hne => ?_⟩
  · simp [imgReplacer, hm, hres]
  · simp [coverImageValue, hne, hres]

/-- Witness for C6: the reference `https://ex.com/a.png` is preserved
unchanged by both the img-tag replacer and the cover-image step, even on a
file system where every path exists. -/
theorem nonlocal_refs_untouched_witness :
    imgReplacer
      { fexists := fun _ => true
        readBytes := fun _ => some []
        resolvePath := fun _ b => b } "content".toList
      { before := "<img src=".toList, src := "https://ex.com/a.png".toList,
        after := ">".toList } =
      (Except.ok (renderImgMatch
        { before := "<img src=".toList, src := "https://ex.com/a.png".toList,
          after := ">".toList }), 0) ∧
    coverImageValue
      { fexists := fun _ => true
        readBytes := fun _ => some []
        resolvePath := fun _ b => b } "content".toList
      (some "https://ex.com/a.png".toList) =
      (Except.ok "https://ex.com/a.png".toList, 0) := by
  have h := nonlocal_refs_untouched
    { fexists := fun _ => true
      readBytes := fun _ => some []
      resolvePath := fun _ b => b } "content".toList "https://ex.com/a.png".toList
    (Or.inr (Or.inr (Or.inl (by decide))))
  exact ⟨h.2.1 _ rfl, h.2.2 (by decide)⟩

/-!
## Reading-time lemmas
-/

theorem countRunsAux_false_pos : ∀ {s : List Char},
    (∃ c ∈ s, Char.isWhitespace c = false) → 1 ≤ countRunsAux false s := by
  intro s
  induction s with
  | nil => intro h; obtain ⟨c, hc, _⟩ := h; exact absurd hc (List.not_mem_nil c)
  | cons c cs ih =>
    intro h
    by_cases hw : Char.isWhitespace c = true
    · have : ∃ d ∈ cs, Char.isWhitespace d = false := by
        obtain ⟨d, hd, hdw⟩ := h
        rcases List.mem_cons.mp hd with rfl | hd2
        · exact absurd hw (by simp [hdw])
        · exact ⟨d, hd2, hdw⟩
      simpa [countRunsAux, hw] using ih this
    · simp only [Bool.not_eq_true] at hw
      simp [countRunsAux, hw]

theorem dropWhile_ne_nil_mem {p : Char → Bool} : ∀ {l : List Char},
    l.dropWhile p ≠ [] → ∃ c ∈ l.dropWhile p, p c = false := by
  intro l
  induction l with
  | nil => intro h; simp at h
  | cons a as ih =>
    intro h
    rw [List.dropWhile_cons] at h ⊢
    by_cases hp : p a = true
    · simp only [hp, if_pos rfl] at h ⊢
      exact ih h
    · simp only [Bool.not_eq_true] at hp
      simp only [hp]
      exact ⟨a, by simp, hp⟩

theorem wordCount_pos (t : List Char) : 1 ≤ wordCount t := by
  unfold wordCount
  by_cases he : (jsTrim t).isEmpty = true
  · simp [he]
  · simp only [he, if_neg]
    have hne : (((t.dropWhile Char.isWhitespace).reverse.dropWhile Char.isWhitespace)) ≠ [] := by
      intro hnil
      apply he
      simp [jsTrim, hnil]
    obtain ⟨c, hc, hcw⟩ := dropWhile_ne_nil_mem hne
    have : ∃ c ∈ jsTrim t, Char.isWhitespace c = false := by
      refine ⟨c, ?_, hcw⟩
      simp only [jsTrim, List.mem_reverse]
      exact hc
    have h1 := countRunsAux_false_pos this
    simpa [jsTrim] using h1

theorem natDigitsAux_pos (fuel n : Nat) (h : 0 < fuel) :
    1 ≤ (natDigitsAux fuel n).length := by
  cases fuel with
  | zero => omega
  | succ f =>
    simp only [natDigitsAux]
    split
    · simp
    · simp

theorem natToChars_ne_zero {m : Nat} (hm : 1 ≤ m) : natToChars m ≠ ['0'] := by
  by_cases h10 : m < 10
  · have hfin : ∀ k : Fin 10, 1 ≤ k.val → natToChars k.val ≠ ['0'] := by decide
    exact hfin ⟨m, h10⟩ hm
  · intro he
    unfold natToChars natDigitsAux at he
    rw [if_neg h10] at he
    have hlen := congrArg List.length he
    simp only [List.length_append, List.length_cons, List.length_nil] at hlen
    have := natDigitsAux_pos m (m / 10) (by omega)
    omega

/-!
## Claim theorems: reading time, document data, job runner
-/

/-- C7. Reading time: when the metadata supplies no `read_time`, the compiled
data's `read_time` is the computed estimate: the body split on whitespace
runs, tokens counted, `minutes = ceil(tokenCount / 230)`, formatted as
`"<minutes> min read"`; a 230-word body gives `"1 min read"`, a 231-word body
`"2 min read"`, a 1-word body `"1 min read"`, and a non-empty body always at
least 1 minute. -/
theorem reading_time_computation (fm : Frontmatter)
    (markdown styles htmlContent coverImage : List Char)
    (h : fm.read_time = none) :
    (buildData fm markdown styles htmlContent coverImage).read_time = readingTime markdown ∧
    readingTime markdown =
      natToChars (ceilDiv (wordCount markdown) 230) ++ " min read".toList ∧
    (∀ t : List Char, wordCount t = 230 → readingTime t = "1 min read".toList) ∧
    (∀ t : List Char, wordCount t = 231 → readingTime t = "2 min read".toList) ∧
    (∀ t : List Char, wordCount t = 1 → readingTime t = "1 min read".toList) ∧
    (∀ t : List Char, t ≠ [] → 1 ≤ ceilDiv (wordCount t) 230) := by
  refine ⟨by simp [buildData, jsOr, h], rfl, fun t ht => ?_, fun t ht => ?_,
    fun t ht => ?_, fun t _ => ?_⟩
  · unfold readingTime
    rw [ht]
    decide
  · unfold readingTime
    rw [ht]
    decide
  · unfold readingTime
    rw [ht]
    decide
  · have := wordCount_pos t
    unfold ceilDiv
    omega

/-- Witness for C7: with absent `read_time`, the data record's `read_time` is
the computed estimate, and concrete 230-, 231- and 1-word bodies give
`"1 min read"`, `"2 min read"` and `"1 min read"` respectively. -/
theorem reading_time_computation_witness :
    (buildData ⟨none, none, none, none, none, none, none, none, none, none⟩
      "hello world".toList [] [] []).read_time = readingTime "hello world".toList ∧
    readingTime ((List.replicate 230 ['a', ' ']).flatten) = "1 min read".toList ∧
    readingTime ((List.replicate 231 ['a', ' ']).flatten) = "2 min read".toList ∧
    readingTime ['a'] = "1 min read".toList ∧
    1 ≤ ceilDiv (wordCount ['a']) 230 := by
  have h := reading_time_computation
    ⟨none, none, none, none, none, none, none, none, none, none⟩
    "hello world".toList [] [] [] rfl
  refine ⟨h.1, ?_, ?_, ?_, ?_⟩
  · exact h.2.2.1 _ (by decide)
  · exact h.2.2.2.1 _ (by decide)
  · exact h.2.2.2.2.1 _ (by decide)
  · exact h.2.2.2.2.2 _ (by decide)

/-- C8. Missing title tolerated: when the metadata lacks `title`, compilation
does not fail; the data record and render context receive the literal default
`"Untitled"` for the `title` key and the compile pipeline proceeds to a
normal rendered output. -/
theorem missing_title_defaults (fm : Frontmatter)
    (markdown styles htmlContent coverImage : List Char)
    (h : fm.title = none) :
    (buildData fm markdown styles htmlContent coverImage).title = "Untitled".toList ∧
    ctxOf (buildData fm markdown styles htmlContent coverImage) "title".toList =
      some "Untitled".toList ∧
    (∀ fs contentDir template cov w,
      coverImageValue fs contentDir fm.cover_image = (Except.ok cov, w) →
      compileModel fs contentDir fm markdown htmlContent styles template =
        (Except.ok (renderTemplate
          (ctxOf (buildData fm markdown styles htmlContent cov)) template), w)) := by
  refine ⟨by simp [buildData, jsOr, h], by simp [ctxOf, buildData, jsOr, h],
    fun fs contentDir template cov w hcov => ?_⟩
  simp [compileModel, hcov]

/-- Witness for C8: a frontmatter with every field absent compiles, the
title defaulting to `"Untitled"`. -/
theorem missing_title_defaults_witness :
    (buildData ⟨none, none, none, none, none, none, none, none, none, none⟩
      [] [] [] []).title = "Untitled".toList ∧
    compileModel
      { fexists := fun _ => false
        readBytes := fun _ => none
        resolvePath := fun _ b => b } "content".toList
      ⟨none, none, none, none, none, none, none, none, none, none⟩ [] [] [] [] =
      (Except.ok (renderTemplate
        (ctxOf (buildData ⟨none, none, none, none, none, none, none, none, none, none⟩
          [] [] [] [])) []), 0) := by
  have h := missing_title_defaults
    ⟨none, none, none, none, none, none, none, none, none, none⟩ [] [] [] [] rfl
  exact ⟨h.1, h.2.2
    { fexists := fun _ => false
      readBytes := fun _ => none
      resolvePath := fun _ b => b } "content".toList [] [] 0 rfl⟩

/-- C9. Empty batch is success: when the collect step yields no files (no
explicit targets and no `.md` entries in the directory listing), the run
prints the guidance message, exits with code 0, compiles nothing, and
produces no output files. -/
theorem empty_batch_success (contentDir : List Char) (args listing : List (List Char))
    (compileFn : List Char → Except Unit (List Char))
    (h : collectFiles contentDir args listing = []) :
    mainRun contentDir args listing compileFn =
      { exitCode := 0, outputs := [], printedGuidance := true } ∧
    (∀ args2 listing2 : List (List Char),
      listing2.filter (fun f => ".md".toList.isSuffixOf f) = [] →
      args2.filter (fun a => !("--".toList.isPrefixOf a)) = [] →
      collectFiles contentDir args2 listing2 = []) := by
  constructor
  · simp [mainRun, h]
  · intro args2 listing2 hmd htg
    unfold collectFiles
    simp only [hmd, htg, List.map_nil, List.isEmpty_nil]
    split
    · rfl
    · simp

/-- Witness for C9: an empty argument list over a listing with no markdown
files exits 0 with no outputs and the guidance message printed. -/
theorem empty_batch_success_witness :
    mainRun "content".toList [] ["readme.txt".toList] (fun _ => Except.ok []) =
      { exitCode := 0, outputs := [], printedGuidance := true } :=
  (empty_batch_success "content".toList [] ["readme.txt".toList]
    (fun _ => Except.ok []) (by decide)).1

/-- C10. Implicit edge case: for an empty or whitespace-only body the
computed reading time is still `"1 min read"` (the trimmed empty string
splits into one token and `ceil(1/230) = 1`), and `readingTime` never
produces `"0 min read"` for any input whatsoever: the minute count is always
at least 1. -/
theorem reading_time_never_zero (t : List Char) :
    (jsTrim t = [] → readingTime t = "1 min read".toList) ∧
    readingTime t ≠ "0 min read".toList ∧
    1 ≤ ceilDiv (wordCount t) 230 := by
  have hpos : 1 ≤ wordCount t := wordCount_pos t
  have hmin : 1 ≤ ceilDiv (wordCount t) 230 := by
    unfold ceilDiv
    omega
  refine ⟨fun htrim => ?_, fun heq => ?_, hmin⟩
  · have hw : wordCount t = 1 := by
      unfold wordCount
      simp [htrim]
    unfold readingTime
    rw [hw]
    decide
  · unfold readingTime at heq
    have : natToChars (ceilDiv (wordCount t) 230) = ['0'] := by
      have h0 : "0 min read".toList = ['0'] ++ " min read".toList := by decide
      rw [h0] at heq
      exact List.append_cancel_right heq
    exact natToChars_ne_zero hmin this

/-- Witness for C10: a whitespace-only body reads `"1 min read"` and is not
`"0 min read"`. -/
theorem reading_time_never_zero_witness :
    readingTime "   ".toList = "1 min read".toList ∧
    readingTime "   ".toList ≠ "0 min read".toList := by
  have h := reading_time_never_zero "   ".toList
  exact ⟨h.1 (by decide), h.2.1⟩
